import Mathlib

/-!
# Verification of the pyXDSM diagram builder (`pyxdsm/XDSM.py`)

A shallow embedding of the `XDSM` class: the diagram model accumulated by the
builder methods (`add_system`, `add_input`, `add_output`, `connect`,
`add_process`) and the three rendering functions (`_build_node_grid`,
`_build_edges`, `_build_process_chain`) together with the `write` skeleton.

Python dictionaries are modelled as insertion-ordered association lists where
assignment to an existing key replaces the value in place; Python `KeyError`
lookups become `Option`, raised `ValueError`s become `Except String`.
-/

set_option autoImplicit false

namespace PyXDSM

/-- A label argument: either a plain string or a list of lines
(Python accepts `str` or `tuple`/`list`). -/
inductive Label where
  | str (s : String)
  | lst (l : List String)
deriving DecidableEq, Repr

/-- `XDSM._parse_label`: a list label becomes a stacked math array, a plain
label is wrapped in `$...$`. -/
def parse_label : Label → String
  | .str s => "$" ++ s ++ "$"
  | .lst l => "$\\begin\x7barray\x7d\x7bc\x7d" ++ String.intercalate " \\\\ " l ++ "\\end\x7barray\x7d$"

/-- An entry of `self.comps`: the argument list of `add_system`.
`text_width` holds the already-formatted width (Python interpolates the raw
value with `'{}'.format`). -/
structure Comp where
  node_name : String
  style : String
  label : Label
  stack : Bool
  faded : Bool
  text_width : Option String
deriving DecidableEq, Repr

/-- An entry of `self.connections`: the argument list of `connect`. -/
structure Conn where
  src : String
  target : String
  style : String
  label : Label
  stack : Bool
  faded : Bool
deriving DecidableEq, Repr

/-- A value of `self.ins` / `self.left_outs` / `self.right_outs`: the tuple
`(node_name, style, label, stack)`. -/
structure Marker where
  node_name : String
  style : String
  label : Label
  stack : Bool
deriving DecidableEq, Repr

/-- Python dict assignment `d[k] = v` on an insertion-ordered association
list: an existing key keeps its position and gets the new value, a fresh key
is appended at the end. -/
def dictInsert {α : Type} (k : String) (v : α) : List (String × α) → List (String × α)
  | [] => [(k, v)]
  | (k', v') :: rest => if k' = k then (k, v) :: rest else (k', v') :: dictInsert k v rest

/-- Python dict lookup `d[k]`, `none` standing for a raised `KeyError`. -/
def dictLookup {α : Type} (k : String) : List (String × α) → Option α
  | [] => none
  | (k', v') :: rest => if k' = k then some v' else dictLookup k rest

/-- The `XDSM` object's state: the fields set up in `__init__`.
The only recognized keyword argument is `use_sfmath` (default `True`). -/
structure XDSM where
  comps : List Comp
  connections : List Conn
  left_outs : List (String × Marker)
  right_outs : List (String × Marker)
  ins : List (String × Marker)
  processes : List (List String)
  process_arrows : List Bool
  use_sfmath : Bool
deriving DecidableEq, Repr

/-- `XDSM.__init__`: empty collections, `use_sfmath` from the kwargs. -/
def XDSM.init (use_sfmath : Bool := true) : XDSM :=
  ⟨[], [], [], [], [], [], [], use_sfmath⟩

/-- `XDSM.add_system`: append the component record to `self.comps`. -/
def XDSM.add_system (m : XDSM) (node_name style : String) (label : Label)
    (stack : Bool := false) (faded : Bool := false) (text_width : Option String := none) : XDSM :=
  { m with comps := m.comps ++ [⟨node_name, style, label, stack, faded, text_width⟩] }

/-- `XDSM.add_input`: `self.ins[name] = ('output_'+name, style, label, stack)`. -/
def XDSM.add_input (m : XDSM) (name : String) (label : Label)
    (style : String := "DataIO") (stack : Bool := false) : XDSM :=
  { m with ins := dictInsert name ⟨"output_" ++ name, style, label, stack⟩ m.ins }

/-- `XDSM.add_output`: writes `self.left_outs[name]` when `side == "left"`,
`self.right_outs[name]` when `side == "right"`, and does nothing otherwise
(the `if`/`elif` has no `else` branch). -/
def XDSM.add_output (m : XDSM) (name : String) (label : Label)
    (style : String := "DataIO") (stack : Bool := false) (side : String := "left") : XDSM :=
  if side = "left" then
    { m with left_outs := dictInsert name ⟨"left_output_" ++ name, style, label, stack⟩ m.left_outs }
  else if side = "right" then
    { m with right_outs := dictInsert name ⟨"right_output_" ++ name, style, label, stack⟩ m.right_outs }
  else
    m

/-- `XDSM.connect`: raises `ValueError` on a self connection, otherwise
appends to `self.connections`. -/
def XDSM.connect (m : XDSM) (src target : String) (label : Label)
    (style : String := "DataInter") (stack : Bool := false) (faded : Bool := false) :
    Except String XDSM :=
  if src = target then
    .error "Can not connect component to itself"
  else
    .ok { m with connections := m.connections ++ [⟨src, target, style, label, stack, faded⟩] }

/-- `XDSM.add_process`: append the sequence and its arrow flag. -/
def XDSM.add_process (m : XDSM) (systems : List String) (arrow : Bool := true) : XDSM :=
  { m with processes := m.processes ++ [systems], process_arrows := m.process_arrows ++ [arrow] }

/-! ## Grid layout (`_build_node_grid`) -/

/-- The sparse node grid, a total function from (row, column) to cell text;
unwritten cells hold the empty string, as in `grid[:] = ''`. -/
def Grid := Nat → Nat → String

/-- `grid[r, c] = v`. -/
def gset (g : Grid) (r c : Nat) (v : String) : Grid :=
  fun i j => if i = r ∧ j = c then v else g i j

/-- The grid before any placement: every cell empty. -/
def emptyGrid : Grid := fun _ _ => ""

/-- The node template
`\node [{style}] ({node_name}) {{{node_label}}};` after interpolation. -/
def node_str (style node_name node_label : String) : String :=
  "\\node [" ++ style ++ "] (" ++ node_name ++ ") \x7b" ++ node_label ++ "\x7d;"

/-- Style-tag suffixing for a component: `,stack`, `,faded`, and the optional
`,text width={}cm`. -/
def compStyle (c : Comp) : String :=
  let s := c.style
  let s := if c.stack then s ++ ",stack" else s
  let s := if c.faded then s ++ ",faded" else s
  match c.text_width with
  | some w => s ++ ",text width=" ++ w ++ "cm"
  | none => s

/-- The rendered diagonal node of a component. -/
def compNode (c : Comp) : String :=
  node_str (compStyle c) c.node_name (parse_label c.label)

/-- Style-tag suffixing for a connection: `,stack` and `,faded`. -/
def connStyle (c : Conn) : String :=
  let s := c.style
  let s := if c.stack then s ++ ",stack" else s
  if c.faded then s ++ ",faded" else s

/-- The rendered off-diagonal node of a connection; its name is
`'{}-{}'.format(src, target)`. -/
def connNode (c : Conn) : String :=
  node_str (connStyle c) (c.src ++ "-" ++ c.target) (parse_label c.label)

/-- Style-tag suffixing for an input/output marker: only `,stack`. -/
def markerStyle (mk : Marker) : String :=
  if mk.stack then mk.style ++ ",stack" else mk.style

/-- The rendered border node of an input/output marker. -/
def markerNode (mk : Marker) : String :=
  node_str (markerStyle mk) mk.node_name (parse_label mk.label)

/-- Row shift applied to every component: 1 when any input markers exist
(`if self.ins: comps_rows += 1`). -/
def rowShift (m : XDSM) : Nat := if m.ins.isEmpty then 0 else 1

/-- Column shift applied to every component: 1 when any left output markers
exist (`if self.left_outs: comps_cols += 1`). -/
def colShift (m : XDSM) : Nat := if m.left_outs.isEmpty then 0 else 1

/-- The final grid dimension: `len(self.comps)` plus one for each nonempty
border collection. -/
def gridSize (m : XDSM) : Nat :=
  m.comps.length + (if m.ins.isEmpty then 0 else 1)
    + (if m.left_outs.isEmpty then 0 else 1)
    + (if m.right_outs.isEmpty then 0 else 1)

/-- The loop body shared by `row_idx_map` and `col_idx_map`: assign each
component name the index `i + shift`, in declaration order. -/
def buildIdxMapGo (shift : Nat) : Nat → List Comp → List (String × Nat) → List (String × Nat)
  | _, [], mp => mp
  | i, c :: rest, mp => buildIdxMapGo shift (i + 1) rest (dictInsert c.node_name (i + shift) mp)

/-- `row_idx_map` / `col_idx_map` as built in the diagonal-placement loop. -/
def buildIdxMap (shift : Nat) (comps : List Comp) : List (String × Nat) :=
  buildIdxMapGo shift 0 comps []

/-- The diagonal-placement loop
`for i_row, j_col, comp in zip(comps_rows, comps_cols, self.comps)`. -/
def placeDiag (rs cs : Nat) : Nat → List Comp → Grid → Grid
  | _, [], g => g
  | i, c :: rest, g => placeDiag rs cs (i + 1) rest (gset g (i + rs) (i + cs) (compNode c))

/-- Grid position of a connection's off-diagonal node:
`(row_idx_map[src], col_idx_map[target])`, `none` on `KeyError`. -/
def connCell (rmap cmap : List (String × Nat)) (c : Conn) : Option (Nat × Nat) :=
  match dictLookup c.src rmap, dictLookup c.target cmap with
  | some sr, some tc => some (sr, tc)
  | _, _ => none

/-- The connection-placement loop: each connection's node at
`(src row, target column)`; a missing endpoint raises `KeyError`. -/
def placeConns (rmap cmap : List (String × Nat)) : List Conn → Grid → Option Grid
  | [], g => some g
  | c :: rest, g =>
    match connCell rmap cmap c with
    | some (sr, tc) => placeConns rmap cmap rest (gset g sr tc (connNode c))
    | none => none

/-- The left-output loop: each marker at `(owner row, 0)`. -/
def placeLeftOuts (rmap : List (String × Nat)) : List (String × Marker) → Grid → Option Grid
  | [], g => some g
  | (comp_name, mk) :: rest, g =>
    match dictLookup comp_name rmap with
    | some i_row => placeLeftOuts rmap rest (gset g i_row 0 (markerNode mk))
    | none => none

/-- The right-output loop: each marker at `(owner row, size-1)` (Python index
`-1`). -/
def placeRightOuts (rmap : List (String × Nat)) (size : Nat) :
    List (String × Marker) → Grid → Option Grid
  | [], g => some g
  | (comp_name, mk) :: rest, g =>
    match dictLookup comp_name rmap with
    | some i_row => placeRightOuts rmap size rest (gset g i_row (size - 1) (markerNode mk))
    | none => none

/-- The input loop: each marker at `(0, owner column)`. -/
def placeIns (cmap : List (String × Nat)) : List (String × Marker) → Grid → Option Grid
  | [], g => some g
  | (comp_name, mk) :: rest, g =>
    match dictLookup comp_name cmap with
    | some j_col => placeIns cmap rest (gset g 0 j_col (markerNode mk))
    | none => none

/-- The populated grid of `_build_node_grid` before serialization, `none`
when a lookup of an undeclared component raises `KeyError`. -/
def buildGrid (m : XDSM) : Option Grid := do
  let rmap := buildIdxMap (rowShift m) m.comps
  let cmap := buildIdxMap (colShift m) m.comps
  let g := placeDiag (rowShift m) (colShift m) 0 m.comps emptyGrid
  let g ← placeConns rmap cmap m.connections g
  let g ← placeLeftOuts rmap m.left_outs g
  let g ← placeRightOuts rmap (gridSize m) m.right_outs g
  let g ← placeIns cmap m.ins g
  pure g

/-- The row-serialization loop:
`rows_str += "%Row {}\n".format(i) + '&\n'.join(row) + r'\\' + '\n'`. -/
def gridRows (size : Nat) (cell : Grid) : String :=
  (List.range size).foldl
    (fun acc i =>
      acc ++ "%Row " ++ toString i ++ "\n"
        ++ String.intercalate "&\n" ((List.range size).map (cell i)) ++ "\\\\" ++ "\n")
    ""

/-- `XDSM._build_node_grid`: the serialized grid string. -/
def build_node_grid (m : XDSM) : Option String :=
  (buildGrid m).map (gridRows (gridSize m))

/-- Cell `(r, c)` of the populated grid, for concrete evaluation. -/
def gridCell (m : XDSM) (r c : Nat) : Option String :=
  (buildGrid m).map (fun g => g r c)

/-! ## Edges (`_build_edges`) -/

/-- The template `"({start}) edge [DataLine] ({end})"`. -/
def edge_string (start e : String) : String :=
  "(" ++ start ++ ") edge [DataLine] (" ++ e ++ ")"

/-- The horizontal edge list: component → its off-diagonal connection node,
then component → its left/right output markers. -/
def h_edgesList (m : XDSM) : List String :=
  m.connections.map (fun c => edge_string c.src (c.src ++ "-" ++ c.target))
    ++ m.left_outs.map (fun p => edge_string p.1 p.2.node_name)
    ++ m.right_outs.map (fun p => edge_string p.1 p.2.node_name)

/-- The vertical edge list: off-diagonal connection node → target component,
then component → its input marker. -/
def v_edgesList (m : XDSM) : List String :=
  m.connections.map (fun c => edge_string (c.src ++ "-" ++ c.target) c.target)
    ++ m.ins.map (fun p => edge_string p.1 p.2.node_name)

/-- `XDSM._build_edges`: both edge groups serialized with their comment
headers and a closing semicolon. -/
def build_edges (m : XDSM) : String :=
  "% Horizontal edges\n" ++ String.intercalate "\n" (h_edgesList m) ++ "\n"
    ++ "% Vertical edges\n" ++ String.intercalate "\n" (v_edgesList m) ++ ";"

/-! ## Process chains (`_build_process_chain`) -/

/-- `sys_names`: the declared component names. -/
def sysNames (m : XDSM) : List String := m.comps.map Comp.node_name

/-- `output_names`: derived reference names of the declared input and output
markers, in the order the code concatenates them. -/
def outputNames (m : XDSM) : List String :=
  m.ins.map (fun p => p.2.node_name)
    ++ m.left_outs.map (fun p => p.2.node_name)
    ++ m.right_outs.map (fun p => p.2.node_name)

/-- The `ValueError` message for an unresolved process entry. -/
def procErrMsg (sys : String) : String :=
  "process includes a system named \"" ++ sys ++ "\" but no system with that name exists."

/-- The line emitted by `\chainin` for the entry `sys` at position `i`
(`start_tip` is the flag set while processing position 0). -/
def chainLine (output_names : List String) (arrow : Bool) (i : Nat) (start_tip : Bool)
    (sys : String) : String :=
  if i = 0 then
    "\\chainin (" ++ sys ++ ");\n"
  else if sys ∈ output_names ∨ (i = 1 ∧ start_tip) then
    if arrow then "\\chainin (" ++ sys ++ ") [join=by ProcessTipA];\n"
    else "\\chainin (" ++ sys ++ ") [join=by ProcessTip];\n"
  else
    if arrow then "\\chainin (" ++ sys ++ ") [join=by ProcessHVA];\n"
    else "\\chainin (" ++ sys ++ ") [join=by ProcessHV];\n"

/-- The inner loop `for i, sys in enumerate(proc)`: validate each entry, set
`start_tip` when the first entry is a marker reference, and accumulate the
`\chainin` lines. -/
def chainInner (sys_names output_names : List String) (arrow : Bool) :
    Nat → Bool → List String → String → Except String String
  | _, _, [], acc => .ok acc
  | i, start_tip, sys :: rest, acc =>
    if sys ∉ sys_names ∧ sys ∉ output_names then
      .error (procErrMsg sys)
    else
      let start_tip := if sys ∈ output_names ∧ i = 0 then true else start_tip
      chainInner sys_names output_names arrow (i + 1) start_tip rest
        (acc ++ chainLine output_names arrow i start_tip sys)

/-- The fixed text wrapped around one process sequence's `\chainin` lines:
the `start chain` header and the `pgfonlayer` footer. -/
def chainBlockWrap (inner : String) : String :=
  "\x7b [start chain=process]\n \\begin\x7bpgfonlayer\x7d\x7bprocess\x7d \n"
    ++ inner ++ "\\end\x7bpgfonlayer\x7d\n\x7d"

/-- One process sequence rendered into its chain block. -/
def chainOne (sys_names output_names : List String) (proc : List String) (arrow : Bool) :
    Except String String := do
  let inner ← chainInner sys_names output_names arrow 0 false proc ""
  pure (chainBlockWrap inner)

/-- The outer loop `for proc, arrow in zip(self.processes,
self.process_arrows)`: accumulate each sequence's chain block into
`chain_str`; a raised `ValueError` propagates. -/
def buildChainGo (sys_names output_names : List String) :
    List (List String × Bool) → String → Except String String
  | [], acc => .ok acc
  | pa :: rest, acc =>
    match chainOne sys_names output_names pa.1 pa.2 with
    | .ok block => buildChainGo sys_names output_names rest (acc ++ block)
    | .error e => .error e

/-- `XDSM._build_process_chain`: the chain blocks of every
`(process, arrow)` pair of `zip(self.processes, self.process_arrows)`,
concatenated. -/
def build_process_chain (m : XDSM) : Except String String :=
  buildChainGo (sysNames m) (outputNames m) (m.processes.zip m.process_arrows) ""

/-! ## Spec-side descriptions of the process-chain join styles

These definitions follow the specification's words (as amended by the
verification below) rather than the code, so that the code's chain builder
can be compared against them. -/

/-- The four join style names: `Tip` vs `HV`, with the `A` (arrowed) variant
chosen uniformly per sequence by its arrow flag. -/
def specJoinStyle (arrow tip : Bool) : String :=
  if tip then (if arrow then "ProcessTipA" else "ProcessTip")
  else (if arrow then "ProcessHVA" else "ProcessHV")

/-- Amended spec wording for the join of the link into the entry `sys` at
position `i ≥ 1`: the "tip" style is used exactly when the entry itself (the
link's target) is a marker reference, or when `i = 1` and the sequence's
first entry was a marker reference (`st`). -/
def specTip (output_names : List String) (st : Bool) (i : Nat) (sys : String) : Bool :=
  decide (sys ∈ output_names) || (i == 1 && st)

/-- The `\chainin` lines for the entries after the first, per the amended
spec wording; `st` records whether the first entry was a marker reference. -/
def specLines (output_names : List String) (arrow st : Bool) : Nat → List String → String
  | _, [] => ""
  | i, sys :: rest =>
    "\\chainin (" ++ sys ++ ") [join=by "
        ++ specJoinStyle arrow (specTip output_names st i sys) ++ "];\n"
      ++ specLines output_names arrow st (i + 1) rest

/-- A whole sequence's `\chainin` lines per the amended spec wording: the
first entry starts the chain with no incoming join, later entries join per
`specLines`. -/
def specChain (output_names : List String) (arrow : Bool) : List String → String
  | [] => ""
  | first :: rest =>
    "\\chainin (" ++ first ++ ");\n"
      ++ specLines output_names arrow (decide (first ∈ output_names)) 1 rest

/-- The claim's wording of the tip condition for the link into position
`i ≥ 1`: the link's SOURCE entry (at position `i - 1`) is a marker reference,
or the link targets position 1 of a sequence whose first entry was a marker
reference. -/
def claimTipAt (output_names : List String) (proc : List String) (i : Nat) : Bool :=
  decide (proc.getD (i - 1) "" ∈ output_names)
    || (i == 1 && decide (proc.getD 0 "" ∈ output_names))

/-! ## Rendering and `write` -/

/-- `_compose_optional_package_list`: `sfmath` exactly when `use_sfmath`. -/
def compose_optional_package_list (m : XDSM) : String :=
  String.intercalate "," (if m.use_sfmath then ["sfmath"] else [])

/-- The module-level `tikzpicture_template` after `.format`. -/
def tikzpicture_template (nodes edges process diagram_styles_path optional_packages : String) :
    String :=
  "\n%%% Preamble Requirements %%%\n"
    ++ "% \\usepackage\x7bgeometry\x7d\n"
    ++ "% \\usepackage\x7bamsfonts\x7d\n"
    ++ "% \\usepackage\x7bamsmath\x7d\n"
    ++ "% \\usepackage\x7bamssymb\x7d\n"
    ++ "% \\usepackage\x7btikz\x7d\n\n"
    ++ "% Optional packages such as sfmath set through python interface\n"
    ++ "% \\usepackage\x7b" ++ optional_packages ++ "\x7d\n\n"
    ++ "% \\usetikzlibrary\x7barrows,chains,positioning,scopes,shapes.geometric,shapes.misc,shadows\x7d\n\n"
    ++ "%%% End Preamble Requirements %%%\n\n"
    ++ "\\input\x7b" ++ diagram_styles_path ++ "\x7d\n"
    ++ "\\begin\x7btikzpicture\x7d\n\n"
    ++ "\\matrix[MatrixSetup]\x7b\n"
    ++ nodes ++ "\x7d;\n\n"
    ++ "% XDSM process chains\n"
    ++ process ++ "\n\n"
    ++ "\\begin\x7bpgfonlayer\x7d\x7bdata\x7d\n"
    ++ "\\path\n"
    ++ edges ++ "\n"
    ++ "\\end\x7bpgfonlayer\x7d\n\n"
    ++ "\\end\x7btikzpicture\x7d\n"

/-- The module-level `tex_template` after `.format`. -/
def tex_template (tikzpicture_path optional_packages version : String) : String :=
  "\n% XDSM diagram created with pyXDSM " ++ version ++ ".\n"
    ++ "\\documentclass\x7barticle\x7d\n"
    ++ "\\usepackage\x7bgeometry\x7d\n"
    ++ "\\usepackage\x7bamsfonts\x7d\n"
    ++ "\\usepackage\x7bamsmath\x7d\n"
    ++ "\\usepackage\x7bamssymb\x7d\n"
    ++ "\\usepackage\x7btikz\x7d\n\n"
    ++ "% Optional packages such as sfmath set through python interface\n"
    ++ "\\usepackage\x7b" ++ optional_packages ++ "\x7d\n\n"
    ++ "% Define the set of TikZ packages to be included in the architecture diagram document\n"
    ++ "\\usetikzlibrary\x7barrows,chains,positioning,scopes,shapes.geometric,shapes.misc,shadows\x7d\n\n\n"
    ++ "% Set the border around all of the architecture diagrams to be tight to the diagrams themselves\n"
    ++ "% (i.e. no longer need to tinker with page size parameters)\n"
    ++ "\\usepackage[active,tightpage]\x7bpreview\x7d\n"
    ++ "\\PreviewEnvironment\x7btikzpicture\x7d\n"
    ++ "\\setlength\x7b\\PreviewBorder\x7d\x7b5pt\x7d\n\n"
    ++ "\\begin\x7bdocument\x7d\n\n"
    ++ "\\input\x7b" ++ tikzpicture_path ++ "\x7d\n\n"
    ++ "\\end\x7bdocument\x7d\n"

/-- The file-producing skeleton of `XDSM.write`, returning the list of
`(file name, content)` pairs written, in order.  `file_name = none` models the
default `None`: Python then raises `TypeError` at `file_name + '.tikz'` before
any file is opened, so nothing is written (`none`).  A builder exception
(`KeyError` / `ValueError`) likewise propagates before any write.  The
`.tex` wrapper is only written under `if file_name:`, which is falsy for the
empty string.  The external `pdflatex` step is out of scope. -/
def write_files (m : XDSM) (file_name : Option String)
    (diagram_styles_path version : String) : Option (List (String × String)) := do
  let nodes ← build_node_grid m
  let process ← (build_process_chain m).toOption
  let edges := build_edges m
  let pkgs := compose_optional_package_list m
  let tikz_str := tikzpicture_template nodes edges process diagram_styles_path pkgs
  let fn ← file_name
  let tex_str := tex_template (fn ++ ".tikz") pkgs version
  pure ([(fn ++ ".tikz", tikz_str)] ++ (if fn = "" then [] else [(fn ++ ".tex", tex_str)]))

/-! ## Reachable model states -/

/-- The states an `XDSM` object can be in: constructed by `__init__` and
mutated only by the five builder methods (`connect` only when it does not
raise). -/
inductive Reachable : XDSM → Prop where
  | init (use_sfmath : Bool) : Reachable (XDSM.init use_sfmath)
  | add_system (m : XDSM) (node_name style : String) (label : Label)
      (stack faded : Bool) (text_width : Option String) :
      Reachable m → Reachable (m.add_system node_name style label stack faded text_width)
  | add_input (m : XDSM) (name : String) (label : Label) (style : String) (stack : Bool) :
      Reachable m → Reachable (m.add_input name label style stack)
  | add_output (m : XDSM) (name : String) (label : Label) (style side : String) (stack : Bool) :
      Reachable m → Reachable (m.add_output name label style stack side)
  | connect (m m' : XDSM) (src target : String) (label : Label)
      (style : String) (stack faded : Bool) :
      Reachable m → m.connect src target label style stack faded = .ok m' → Reachable m'
  | add_process (m : XDSM) (systems : List String) (arrow : Bool) :
      Reachable m → Reachable (m.add_process systems arrow)

/-! ## Example models -/

/-- One component `A` carrying one input marker labelled `z`
(the scenario of spec §8.8). -/
def exampleA : XDSM :=
  ((XDSM.init true).add_system "A" "Function" (.str "A")).add_input "A" (.str "z")

/-- Two components `A`, `B`, declared in that order, no markers, no
connections. -/
def exampleAB : XDSM :=
  ((XDSM.init true).add_system "A" "Function" (.str "A")).add_system "B" "Function" (.str "B")

/-- Two components plus a process sequence naming the undeclared `C`. -/
def exampleProcBad : XDSM :=
  exampleAB.add_process ["A", "C"] true

/-- Two components plus a process sequence naming only declared components. -/
def exampleProcGood : XDSM :=
  exampleAB.add_process ["A", "B"] true

/-! ## Association-list lemmas -/

theorem dictLookup_dictInsert_self {α : Type} (k : String) (v : α) (mp : List (String × α)) :
    dictLookup k (dictInsert k v mp) = some v := by
  induction mp with
  | nil => simp [dictInsert, dictLookup]
  | cons p rest ih =>
    obtain ⟨k', v'⟩ := p
    by_cases h : k' = k
    · simp [dictInsert, dictLookup, h]
    · simp [dictInsert, dictLookup, h, ih]

theorem mem_keys_dictInsert {α : Type} (a k : String) (v : α) (mp : List (String × α))
    (h : a ∈ (dictInsert k v mp).map Prod.fst) : a ∈ mp.map Prod.fst ∨ a = k := by
  induction mp with
  | nil => simpa [dictInsert] using h
  | cons p rest ih =>
    obtain ⟨k', v'⟩ := p
    by_cases hk : k' = k
    · simp only [dictInsert, if_pos hk] at h
      rcases List.mem_cons.mp h with h | h
      · exact .inr h
      · exact .inl (List.mem_cons.mpr (.inr h))
    · simp only [dictInsert, if_neg hk, List.map_cons] at h
      rcases List.mem_cons.mp h with h | h
      · exact .inl (h ▸ List.mem_cons_self _ _)
      · rcases ih h with h | h
        · exact .inl (List.mem_cons.mpr (.inr h))
        · exact .inr h

theorem keys_nodup_dictInsert {α : Type} (k : String) (v : α) (mp : List (String × α))
    (h : (mp.map Prod.fst).Nodup) : ((dictInsert k v mp).map Prod.fst).Nodup := by
  induction mp with
  | nil => simp [dictInsert]
  | cons p rest ih =>
    obtain ⟨k', v'⟩ := p
    simp only [List.map_cons, List.nodup_cons] at h
    by_cases hk : k' = k
    · subst hk
      simpa [dictInsert, List.nodup_cons] using h
    · simp only [dictInsert, if_neg hk, List.map_cons, List.nodup_cons]
      refine ⟨fun hmem => ?_, ih h.2⟩
      rcases mem_keys_dictInsert k' k v rest hmem with hmem | hmem
      · exact h.1 hmem
      · exact hk hmem

/-! ## Claim theorems -/

/-- C3: `connect` with identical source and target always raises the
self-connection `ValueError` (so the model is left untouched), while with
distinct endpoints it succeeds, appending exactly the one new connection and
changing nothing else. -/
theorem claim_C3 (m : XDSM) (src target : String) (label : Label) (style : String)
    (stack faded : Bool) :
    (src = target →
      m.connect src target label style stack faded
        = .error "Can not connect component to itself")
    ∧ (src ≠ target →
      m.connect src target label style stack faded
        = .ok { m with connections := m.connections ++ [⟨src, target, style, label, stack, faded⟩] }) := by
  constructor <;> intro h <;> simp [XDSM.connect, h]

theorem claim_C3_witness :
    ((XDSM.init true).connect "X" "X" (.str "y") "DataInter" false false
      = .error "Can not connect component to itself")
    ∧ ((XDSM.init true).connect "X" "Y" (.str "y") "DataInter" false false
      = .ok { XDSM.init true with
                connections := [⟨"X", "Y", "DataInter", .str "y", false, false⟩] }) :=
  ⟨(claim_C3 (XDSM.init true) "X" "X" (.str "y") "DataInter" false false).1 rfl, by
    have h := (claim_C3 (XDSM.init true) "X" "Y" (.str "y") "DataInter" false false).2 (by decide)
    simpa [XDSM.init] using h⟩

/-- C7: the three rendering functions are pure functions of the model state;
rendering the same model twice yields identical strings. -/
theorem claim_C7 (m : XDSM) :
    build_node_grid m = build_node_grid m ∧ build_edges m = build_edges m
      ∧ build_process_chain m = build_process_chain m :=
  ⟨rfl, rfl, rfl⟩

/-- C10: `add_output` with a side other than `"left"`/`"right"` raises
nothing and leaves the model exactly unchanged. -/
theorem claim_C10 (m : XDSM) (name : String) (label : Label) (style : String) (stack : Bool)
    (side : String) (h1 : side ≠ "left") (h2 : side ≠ "right") :
    m.add_output name label style stack side = m := by
  simp [XDSM.add_output, h1, h2]

theorem claim_C10_witness :
    (("top" : String) ≠ "left" ∧ ("top" : String) ≠ "right")
    ∧ (XDSM.init true).add_output "A" (.str "a") "DataIO" false "top" = XDSM.init true :=
  ⟨by decide,
   claim_C10 (XDSM.init true) "A" (.str "a") "DataIO" false "top" (by decide) (by decide)⟩

/-- C5, counterexample: for component `A` with input marker labelled `z`, the
vertical edge written is `(A) edge [DataLine] (output_A)` — the marker node
name derives from the owning component's name, not from the label — so the
claimed edge `(A) edge (output_z)` never appears in the edge list. -/
theorem claim_C5_counterexample :
    v_edgesList exampleA = ["(A) edge [DataLine] (output_A)"]
    ∧ "(A) edge [DataLine] (output_z)" ∉ v_edgesList exampleA := by
  constructor
  · rfl
  · decide

/-- C5, amended: for a model with a single component `A` and one input marker
with label `z` attached to `A`, the grid is 2×2 with `A` at cell (1,0) and
the input marker node (named `output_A`) at cell (0,0), and the edge list
contains the vertical edge `(A) edge [DataLine] (output_A)`. -/
theorem claim_C5_amended :
    gridSize exampleA = 2
    ∧ gridCell exampleA 1 0 = some "\\node [Function] (A) \x7b$A$\x7d;"
    ∧ gridCell exampleA 0 0 = some "\\node [DataIO] (output_A) \x7b$z$\x7d;"
    ∧ "(A) edge [DataLine] (output_A)" ∈ v_edgesList exampleA := by
  refine ⟨rfl, rfl, rfl, ?_⟩
  decide

/-- C9, counterexample: with no output prefix (`file_name=None`, the
default), `write` fails at `file_name + '.tikz'` before opening any file, so
not even the `.tikz` artifact is produced. -/
theorem claim_C9_counterexample :
    write_files (XDSM.init true) none "styles" "2.0.0" = none := rfl

/-- C9, amended: whenever a prefix string is supplied (and rendering
succeeds), the `.tikz` artifact is written, and the `.tex` wrapper exactly
when that prefix is nonempty; with no prefix the write fails before
producing anything. -/
theorem claim_C9_amended (m : XDSM) (fn dsp ver nodes chain : String)
    (hn : build_node_grid m = some nodes) (hc : build_process_chain m = .ok chain) :
    (∃ l, write_files m (some fn) dsp ver = some l
      ∧ l.map Prod.fst = [fn ++ ".tikz"] ++ (if fn = "" then [] else [fn ++ ".tex"]))
    ∧ write_files m none dsp ver = none := by
  have hw : write_files m (some fn) dsp ver
      = some ([(fn ++ ".tikz",
            tikzpicture_template nodes (build_edges m) chain dsp (compose_optional_package_list m))]
          ++ (if fn = "" then []
              else [(fn ++ ".tex",
                tex_template (fn ++ ".tikz") (compose_optional_package_list m) ver)])) := by
    simp [write_files, hn, hc, Except.toOption]
  constructor
  · refine ⟨_, hw, ?_⟩
    by_cases h : fn = "" <;> simp [h]
  · simp [write_files, hn, hc, Except.toOption]

theorem claim_C9_witness :
    (∃ l, write_files (XDSM.init true) (some "out") "styles" "2.0.0" = some l
      ∧ l.map Prod.fst = ["out" ++ ".tikz"] ++ (if ("out" : String) = "" then [] else ["out" ++ ".tex"]))
    ∧ write_files (XDSM.init true) none "styles" "2.0.0" = none :=
  claim_C9_amended (XDSM.init true) "out" "styles" "2.0.0" _ _ rfl rfl

/-- C8: every reachable model keeps at most one input marker per component
name and at most one output marker per (component name, side) pair; a later
`add_input` for the same name replaces the prior marker, and `add_output`
touches only the dictionary of its own side. -/
theorem claim_C8 (m : XDSM) (h : Reachable m) :
    (m.ins.map Prod.fst).Nodup ∧ (m.left_outs.map Prod.fst).Nodup
    ∧ (m.right_outs.map Prod.fst).Nodup
    ∧ (∀ (name : String) (label : Label) (style : String) (stack : Bool),
        dictLookup name (m.add_input name label style stack).ins
          = some ⟨"output_" ++ name, style, label, stack⟩
        ∧ (m.add_output name label style stack "left").right_outs = m.right_outs
        ∧ (m.add_output name label style stack "right").left_outs = m.left_outs) := by
  have key : (m.ins.map Prod.fst).Nodup ∧ (m.left_outs.map Prod.fst).Nodup
      ∧ (m.right_outs.map Prod.fst).Nodup := by
    induction h with
    | init u => simp [XDSM.init]
    | add_system m node_name style label stack faded text_width _ ih =>
      simpa [XDSM.add_system] using ih
    | add_input m name label style stack _ ih =>
      exact ⟨keys_nodup_dictInsert _ _ _ ih.1, ih.2.1, ih.2.2⟩
    | add_output m name label style side stack _ ih =>
      by_cases hl : side = "left"
      · simp only [XDSM.add_output, if_pos hl]
        exact ⟨ih.1, keys_nodup_dictInsert _ _ _ ih.2.1, ih.2.2⟩
      · by_cases hr : side = "right"
        · simp only [XDSM.add_output, if_neg hl, if_pos hr]
          exact ⟨ih.1, ih.2.1, keys_nodup_dictInsert _ _ _ ih.2.2⟩
        · simpa [XDSM.add_output, hl, hr] using ih
    | connect m m' src target label style stack faded _ heq ih =>
      unfold XDSM.connect at heq
      split at heq
      · cases heq
      · cases heq
        simpa using ih
    | add_process m systems arrow _ ih =>
      simpa [XDSM.add_process] using ih
  refine ⟨key.1, key.2.1, key.2.2, fun name label style stack => ?_⟩
  refine ⟨dictLookup_dictInsert_self _ _ _, ?_, ?_⟩
  · simp [XDSM.add_output]
  · simp [XDSM.add_output]

theorem claim_C8_witness :
    (((XDSM.init true).ins.map Prod.fst).Nodup)
    ∧ dictLookup "x" ((XDSM.init true).add_input "x" (.str "z") "DataIO" false).ins
        = some ⟨"output_" ++ "x", "DataIO", .str "z", false⟩ :=
  ⟨(claim_C8 (XDSM.init true) (Reachable.init true)).1,
   ((claim_C8 (XDSM.init true) (Reachable.init true)).2.2.2 "x" (.str "z") "DataIO" false).1⟩

/-! ## Index-map shift lemmas (C2) -/

theorem dictInsert_map_snd (f : Nat → Nat) (k : String) (v : Nat) (mp : List (String × Nat)) :
    dictInsert k (f v) (mp.map (fun p => (p.1, f p.2)))
      = (dictInsert k v mp).map (fun p => (p.1, f p.2)) := by
  induction mp with
  | nil => simp [dictInsert]
  | cons p rest ih =>
    obtain ⟨k', v'⟩ := p
    by_cases h : k' = k
    · simp [dictInsert, h]
    · simp [dictInsert, h, ih]

theorem buildIdxMapGo_succ_shift (s : Nat) (comps : List Comp) : ∀ (i : Nat) (mp : List (String × Nat)),
    buildIdxMapGo (s + 1) i comps (mp.map (fun p => (p.1, p.2 + 1)))
      = (buildIdxMapGo s i comps mp).map (fun p => (p.1, p.2 + 1)) := by
  induction comps with
  | nil => intro i mp; rfl
  | cons c rest ih =>
    intro i mp
    show buildIdxMapGo (s + 1) (i + 1) rest
        (dictInsert c.node_name (i + (s + 1)) (mp.map (fun p => (p.1, p.2 + 1)))) = _
    have harg : i + (s + 1) = (i + s) + 1 := by omega
    rw [harg, dictInsert_map_snd (fun x => x + 1) c.node_name (i + s) mp, ih]
    rfl

/-- C2: with at least one input marker declared, the grid dimension is
exactly one larger than it would be with no input markers, and every
component's row index is one greater (row 0 reserved for inputs) — by
exactly 1 no matter how many input markers are declared. -/
theorem claim_C2 (m : XDSM) (h : m.ins ≠ []) :
    gridSize m = gridSize { m with ins := [] } + 1
    ∧ rowShift m = 1 ∧ rowShift { m with ins := [] } = 0
    ∧ buildIdxMap (rowShift m) m.comps
        = (buildIdxMap (rowShift { m with ins := [] }) m.comps).map (fun p => (p.1, p.2 + 1)) := by
  have hne : m.ins.isEmpty = false := by
    cases hm : m.ins
    · exact absurd hm h
    · rfl
  refine ⟨?_, ?_, ?_, ?_⟩
  · simp [gridSize, hne]
    omega
  · simp [rowShift, hne]
  · simp [rowShift]
  · have h1 : rowShift m = 1 := by simp [rowShift, hne]
    have h0 : rowShift { m with ins := [] } = 0 := by simp [rowShift]
    rw [h1, h0]
    show buildIdxMapGo (0 + 1) 0 m.comps [] = _
    have : ([] : List (String × Nat)) = ([] : List (String × Nat)).map (fun p => (p.1, p.2 + 1)) := rfl
    rw [this, buildIdxMapGo_succ_shift 0 m.comps 0 []]
    rfl

/-! ## Process-chain lemmas (C4, C6) -/

theorem str_chunk (sys lit x : String) (h : lit = ") [join=by " ++ (x ++ "];\n")) :
    "\\chainin (" ++ sys ++ lit = "\\chainin (" ++ sys ++ ") [join=by " ++ x ++ "];\n" := by
  subst h
  simp [String.append_assoc]

theorem chainLine_eq_spec (output_names : List String) (arrow : Bool) (i : Nat) (st : Bool)
    (sys : String) (hi : i ≠ 0) :
    chainLine output_names arrow i st sys
      = "\\chainin (" ++ sys ++ ") [join=by "
          ++ specJoinStyle arrow (specTip output_names st i sys) ++ "];\n" := by
  by_cases hc : sys ∈ output_names ∨ (i = 1 ∧ st = true)
  · have ht : specTip output_names st i sys = true := by
      simp only [specTip, Bool.or_eq_true, Bool.and_eq_true, decide_eq_true_eq, beq_iff_eq]
      tauto
    rw [ht]
    cases arrow
    · simp only [chainLine, if_neg hi, if_pos hc, if_neg (Bool.false_ne_true), specJoinStyle,
        if_pos rfl]
      exact str_chunk sys _ _ (by decide)
    · simp only [chainLine, if_neg hi, if_pos hc, specJoinStyle, if_pos rfl]
      exact str_chunk sys _ _ (by decide)
  · have ht : specTip output_names st i sys = false := by
      push_neg at hc
      simp only [specTip, Bool.or_eq_false_iff, Bool.and_eq_false_iff, decide_eq_false_iff_not,
        beq_eq_false_iff_ne]
      refine ⟨hc.1, ?_⟩
      by_cases h1 : i = 1
      · right
        cases hs : st
        · rfl
        · exact absurd hs (hc.2 h1)
      · exact .inl h1
    rw [ht]
    cases arrow
    · simp only [chainLine, if_neg hi, if_neg hc, if_neg (Bool.false_ne_true), specJoinStyle,
        if_neg (Bool.false_ne_true)]
      exact str_chunk sys _ _ (by decide)
    · simp only [chainLine, if_neg hi, if_neg hc, specJoinStyle, if_neg (Bool.false_ne_true),
        if_pos rfl]
      exact str_chunk sys _ _ (by decide)

theorem chainInner_spec (sys_names output_names : List String) (arrow : Bool) :
    ∀ (rest : List String) (i : Nat) (st : Bool) (acc : String), i ≠ 0 →
    (∀ sys ∈ rest, sys ∈ sys_names ∨ sys ∈ output_names) →
    chainInner sys_names output_names arrow i st rest acc
      = .ok (acc ++ specLines output_names arrow st i rest) := by
  intro rest
  induction rest with
  | nil =>
    intro i st acc hi hres
    simp [chainInner, specLines, String.append_empty]
  | cons sys rest ih =>
    intro i st acc hi hres
    have hsys := hres sys (List.mem_cons_self _ _)
    have hnot : ¬(sys ∉ sys_names ∧ sys ∉ output_names) := by tauto
    have hst : ¬(sys ∈ output_names ∧ i = 0) := fun hcon => hi hcon.2
    simp only [chainInner, if_neg hnot, if_neg hst]
    rw [ih (i + 1) st _ (Nat.succ_ne_zero i) (fun s hs => hres s (List.mem_cons_of_mem _ hs))]
    simp only [specLines, chainLine_eq_spec output_names arrow i st sys hi,
      String.append_assoc]

theorem chainInner_ok (sys_names output_names : List String) (arrow : Bool) :
    ∀ (rest : List String) (i : Nat) (st : Bool) (acc : String),
    (∀ sys ∈ rest, sys ∈ sys_names ∨ sys ∈ output_names) →
    ∃ s, chainInner sys_names output_names arrow i st rest acc = .ok s := by
  intro rest
  induction rest with
  | nil => intro i st acc _; exact ⟨acc, rfl⟩
  | cons sys rest ih =>
    intro i st acc hres
    have hsys := hres sys (List.mem_cons_self _ _)
    have hnot : ¬(sys ∉ sys_names ∧ sys ∉ output_names) := by tauto
    simp only [chainInner, if_neg hnot]
    exact ih _ _ _ (fun s hs => hres s (List.mem_cons_of_mem _ hs))

theorem chainInner_err (sys_names output_names : List String) (arrow : Bool) :
    ∀ (rest : List String) (i : Nat) (st : Bool) (acc : String),
    (∃ sys ∈ rest, sys ∉ sys_names ∧ sys ∉ output_names) →
    ∃ sys, (sys ∈ rest ∧ sys ∉ sys_names ∧ sys ∉ output_names)
      ∧ chainInner sys_names output_names arrow i st rest acc = .error (procErrMsg sys) := by
  intro rest
  induction rest with
  | nil =>
    rintro i st acc ⟨sys, hmem, -⟩
    exact absurd hmem (List.not_mem_nil sys)
  | cons sys rest ih =>
    intro i st acc hex
    by_cases hbad : sys ∉ sys_names ∧ sys ∉ output_names
    · refine ⟨sys, ⟨List.mem_cons_self _ _, hbad⟩, ?_⟩
      simp only [chainInner, if_pos hbad]
    · obtain ⟨s, hs, hsbad⟩ := hex
      have hs' : s ∈ rest := by
        rcases List.mem_cons.mp hs with h | h
        · exact absurd (h ▸ hsbad) hbad
        · exact h
      obtain ⟨t, ⟨htmem, htbad⟩, hteq⟩ :=
        ih (i + 1) (if sys ∈ output_names ∧ i = 0 then true else st)
          (acc ++ chainLine output_names arrow i
            (if sys ∈ output_names ∧ i = 0 then true else st) sys)
          ⟨s, hs', hsbad⟩
      refine ⟨t, ⟨List.mem_cons_of_mem _ htmem, htbad⟩, ?_⟩
      simp only [chainInner, if_neg hbad]
      exact hteq

theorem chainOne_ok (sys_names output_names : List String) (proc : List String) (arrow : Bool)
    (hres : ∀ sys ∈ proc, sys ∈ sys_names ∨ sys ∈ output_names) :
    ∃ s, chainOne sys_names output_names proc arrow = .ok s := by
  obtain ⟨s, hs⟩ := chainInner_ok sys_names output_names arrow proc 0 false "" hres
  exact ⟨chainBlockWrap s, by simp [chainOne, hs]⟩

theorem chainOne_err (sys_names output_names : List String) (proc : List String) (arrow : Bool)
    (hex : ∃ sys ∈ proc, sys ∉ sys_names ∧ sys ∉ output_names) :
    ∃ sys, (sys ∈ proc ∧ sys ∉ sys_names ∧ sys ∉ output_names)
      ∧ chainOne sys_names output_names proc arrow = .error (procErrMsg sys) := by
  obtain ⟨t, htbad, hteq⟩ := chainInner_err sys_names output_names arrow proc 0 false "" hex
  exact ⟨t, htbad, by simp [chainOne, hteq]⟩

/-- C6, counterexample: in the sequence `[A, output_A]` (component `A`
followed by a marker reference), the link into `output_A` is rendered with
the arrowed tip join, although its SOURCE entry `A` is not a marker and the
first entry is not a marker either — so the claim's "tip exactly when the
source is a marker (or second entry after a marker first)" rule predicts the
standard HV join for it.  The code keys the tip style on the link's target. -/
theorem claim_C6_counterexample :
    chainOne ["A"] ["output_A"] ["A", "output_A"] true
      = .ok (chainBlockWrap "\\chainin (A);\n\\chainin (output_A) [join=by ProcessTipA];\n")
    ∧ claimTipAt ["output_A"] ["A", "output_A"] 1 = false := by
  constructor
  · rfl
  · decide

/-- C6, amended: for every process sequence whose entries all resolve, every
link (entry at position `i ≥ 1`) is rendered with the "tip" join exactly when
the link's TARGET entry is an input/output marker reference, or when `i = 1`
and the sequence's first entry was a marker reference; all other links use
the horizontal-then-vertical join, with the arrowed variant chosen uniformly
per sequence by its arrow flag (`specChain` states this classification). -/
theorem claim_C6_amended (sys_names output_names : List String) (proc : List String) (arrow : Bool)
    (hres : ∀ sys ∈ proc, sys ∈ sys_names ∨ sys ∈ output_names) :
    chainOne sys_names output_names proc arrow
      = .ok (chainBlockWrap (specChain output_names arrow proc)) := by
  cases proc with
  | nil => simp [chainOne, chainInner, specChain]
  | cons first rest =>
    have hfst := hres first (List.mem_cons_self _ _)
    have hnot : ¬(first ∉ sys_names ∧ first ∉ output_names) := by tauto
    have hstep : chainInner sys_names output_names arrow 0 false (first :: rest) ""
        = .ok (specChain output_names arrow (first :: rest)) := by
      simp only [chainInner, if_neg hnot]
      have hst : (if first ∈ output_names ∧ True then true else false)
          = decide (first ∈ output_names) := by
        by_cases hf : first ∈ output_names
        · simp [hf]
        · simp [hf]
      rw [hst,
        chainInner_spec sys_names output_names arrow rest 1 _ _ Nat.one_ne_zero
          (fun s hs => hres s (List.mem_cons_of_mem _ hs))]
      congr 1
    simp [chainOne, hstep]

theorem claim_C6_witness :
    (∀ sys ∈ ["A", "B"], sys ∈ ["A", "B"] ∨ sys ∈ ["output_A"])
    ∧ chainOne ["A", "B"] ["output_A"] ["A", "B"] true
      = .ok (chainBlockWrap (specChain ["output_A"] true ["A", "B"])) :=
  ⟨by decide, claim_C6_amended ["A", "B"] ["output_A"] ["A", "B"] true (by decide)⟩

theorem foldChain_ok (sys_names output_names : List String) :
    ∀ (l : List (List String × Bool)) (acc : String),
    (∀ pa ∈ l, ∀ sys ∈ pa.1, sys ∈ sys_names ∨ sys ∈ output_names) →
    ∃ s, buildChainGo sys_names output_names l acc = .ok s := by
  intro l
  induction l with
  | nil => intro acc _; exact ⟨acc, rfl⟩
  | cons pa l ih =>
    intro acc hres
    obtain ⟨b, hb⟩ := chainOne_ok sys_names output_names pa.1 pa.2
      (hres pa (List.mem_cons_self _ _))
    obtain ⟨s, hs⟩ := ih (acc ++ b) (fun q hq => hres q (List.mem_cons_of_mem _ hq))
    exact ⟨s, by simp only [buildChainGo, hb, hs]⟩

theorem foldChain_err (sys_names output_names : List String) :
    ∀ (l : List (List String × Bool)) (acc : String),
    (∃ pa ∈ l, ∃ sys ∈ pa.1, sys ∉ sys_names ∧ sys ∉ output_names) →
    ∃ sys, (∃ pa ∈ l, sys ∈ pa.1) ∧ sys ∉ sys_names ∧ sys ∉ output_names
      ∧ buildChainGo sys_names output_names l acc = .error (procErrMsg sys) := by
  intro l
  induction l with
  | nil =>
    rintro acc ⟨pa, hmem, -⟩
    exact absurd hmem (List.not_mem_nil pa)
  | cons pa l ih =>
    intro acc hex
    by_cases hbad : ∃ sys ∈ pa.1, sys ∉ sys_names ∧ sys ∉ output_names
    · obtain ⟨t, ⟨htmem, htbad⟩, hteq⟩ := chainOne_err sys_names output_names pa.1 pa.2 hbad
      exact ⟨t, ⟨pa, List.mem_cons_self _ _, htmem⟩, htbad.1, htbad.2,
        by simp only [buildChainGo, hteq]⟩
    · have hres : ∀ sys ∈ pa.1, sys ∈ sys_names ∨ sys ∈ output_names := by
        intro s hs
        by_contra hcon
        push_neg at hcon
        exact hbad ⟨s, hs, hcon⟩
      obtain ⟨b, hb⟩ := chainOne_ok sys_names output_names pa.1 pa.2 hres
      obtain ⟨q, hq, hqbad⟩ := hex
      have hq' : q ∈ l := by
        rcases List.mem_cons.mp hq with h | h
        · exact absurd (h ▸ hqbad) hbad
        · exact h
      obtain ⟨t, ⟨pa', hpa', htmem⟩, htbad1, htbad2, hteq⟩ := ih (acc ++ b) ⟨q, hq', hqbad⟩
      exact ⟨t, ⟨pa', List.mem_cons_of_mem _ hpa', htmem⟩, htbad1, htbad2,
        by simp only [buildChainGo, hb, hteq]⟩

/-- C4: if any entry of any declared process sequence is neither a declared
component name nor a marker reference name, `_build_process_chain` fails with
the `ValueError` naming an offending entry; if every entry resolves, it
succeeds. -/
theorem claim_C4 (m : XDSM) :
    ((∃ pa ∈ m.processes.zip m.process_arrows, ∃ sys ∈ pa.1,
        sys ∉ sysNames m ∧ sys ∉ outputNames m) →
      ∃ sys, (∃ pa ∈ m.processes.zip m.process_arrows, sys ∈ pa.1)
        ∧ sys ∉ sysNames m ∧ sys ∉ outputNames m
        ∧ build_process_chain m = .error (procErrMsg sys))
    ∧ ((∀ pa ∈ m.processes.zip m.process_arrows, ∀ sys ∈ pa.1,
        sys ∈ sysNames m ∨ sys ∈ outputNames m) →
      ∃ s, build_process_chain m = .ok s) := by
  constructor
  · intro hex
    exact foldChain_err (sysNames m) (outputNames m) (m.processes.zip m.process_arrows) "" hex
  · intro hres
    exact foldChain_ok (sysNames m) (outputNames m) (m.processes.zip m.process_arrows) "" hres

theorem claim_C4_witness :
    (∃ sys, (∃ pa ∈ exampleProcBad.processes.zip exampleProcBad.process_arrows, sys ∈ pa.1)
      ∧ sys ∉ sysNames exampleProcBad ∧ sys ∉ outputNames exampleProcBad
      ∧ build_process_chain exampleProcBad = .error (procErrMsg sys))
    ∧ (∃ s, build_process_chain exampleProcGood = .ok s) :=
  ⟨(claim_C4 exampleProcBad).1 (by decide), (claim_C4 exampleProcGood).2 (by decide)⟩

/-! ## Index-map and grid-placement lemmas (C1) -/

theorem dictLookup_present_dictInsert {α : Type} (name k : String) (v : α)
    (mp : List (String × α)) (h : ∃ w, dictLookup name mp = some w) :
    ∃ w, dictLookup name (dictInsert k v mp) = some w := by
  by_cases hk : k = name
  · subst hk
    exact ⟨v, dictLookup_dictInsert_self k v mp⟩
  · induction mp with
    | nil =>
      obtain ⟨w, hw⟩ := h
      simp [dictLookup] at hw
    | cons p rest ih =>
      obtain ⟨k', v'⟩ := p
      by_cases hkk : k' = k
      · subst hkk
        obtain ⟨w, hw⟩ := h
        simp only [dictLookup, if_neg hk] at hw
        simp only [dictInsert, if_pos rfl, dictLookup, if_neg hk]
        exact ⟨w, hw⟩
      · simp only [dictInsert, if_neg hkk]
        by_cases hn : k' = name
        · simp only [dictLookup, if_pos hn]
          exact ⟨v', rfl⟩
        · simp only [dictLookup, if_neg hn]
          apply ih
          obtain ⟨w, hw⟩ := h
          simp only [dictLookup, if_neg hn] at hw
          exact ⟨w, hw⟩

theorem buildIdxMapGo_present (s : Nat) (comps : List Comp) :
    ∀ (i : Nat) (mp : List (String × Nat)) (name : String),
    (∃ w, dictLookup name mp = some w) →
    ∃ w, dictLookup name (buildIdxMapGo s i comps mp) = some w := by
  induction comps with
  | nil => intro i mp name h; exact h
  | cons c rest ih =>
    intro i mp name h
    exact ih (i + 1) _ name (dictLookup_present_dictInsert name c.node_name (i + s) mp h)

theorem buildIdxMapGo_mem (s : Nat) (comps : List Comp) :
    ∀ (i : Nat) (mp : List (String × Nat)) (name : String),
    name ∈ comps.map Comp.node_name →
    ∃ w, dictLookup name (buildIdxMapGo s i comps mp) = some w := by
  induction comps with
  | nil =>
    intro i mp name h
    simp at h
  | cons c rest ih =>
    intro i mp name h
    simp only [List.map_cons, List.mem_cons] at h
    rcases h with h | h
    · subst h
      exact buildIdxMapGo_present s rest (i + 1) _ c.node_name
        ⟨i + s, dictLookup_dictInsert_self c.node_name (i + s) mp⟩
    · exact ih (i + 1) _ name h

theorem dictInsert_fresh {α : Type} (k : String) (v : α) (mp : List (String × α))
    (h : k ∉ mp.map Prod.fst) : dictInsert k v mp = mp ++ [(k, v)] := by
  induction mp with
  | nil => rfl
  | cons p rest ih =>
    obtain ⟨k', v'⟩ := p
    simp only [List.map_cons, List.mem_cons] at h
    push_neg at h
    have hne : ¬(k' = k) := fun hh => h.1 hh.symm
    simp only [dictInsert, if_neg hne, ih h.2, List.cons_append]

theorem buildIdxMapGo_eq (s : Nat) (comps : List Comp) :
    ∀ (i : Nat) (mp : List (String × Nat)),
    (comps.map Comp.node_name).Nodup →
    (∀ n ∈ comps.map Comp.node_name, n ∉ mp.map Prod.fst) →
    buildIdxMapGo s i comps mp
      = mp ++ (comps.enumFrom i).map (fun p => (p.2.node_name, p.1 + s)) := by
  induction comps with
  | nil => intro i mp _ _; simp [buildIdxMapGo, List.enumFrom]
  | cons c rest ih =>
    intro i mp hnd hdis
    simp only [List.map_cons, List.nodup_cons] at hnd
    have hfresh : c.node_name ∉ mp.map Prod.fst := hdis _ (by simp)
    show buildIdxMapGo s (i + 1) rest (dictInsert c.node_name (i + s) mp) = _
    rw [dictInsert_fresh _ _ _ hfresh,
      ih (i + 1) (mp ++ [(c.node_name, i + s)]) hnd.2 ?_]
    · simp [List.enumFrom]
    · intro n hn
      simp only [List.map_append, List.mem_append, List.map_cons, List.map_nil,
        List.mem_singleton]
      rintro (hmem | hmem)
      · exact hdis n (by simp [hn]) hmem
      · exact hnd.1 (hmem ▸ hn)

theorem buildIdxMap_eq (s : Nat) (comps : List Comp) (hnd : (comps.map Comp.node_name).Nodup) :
    buildIdxMap s comps = (comps.enumFrom 0).map (fun p => (p.2.node_name, p.1 + s)) := by
  rw [buildIdxMap, buildIdxMapGo_eq s comps 0 [] hnd (by simp)]
  rfl

theorem dictLookup_enumMap (s : Nat) (comps : List Comp) :
    ∀ (i : Nat) (name : String) (k : Nat),
    dictLookup name ((comps.enumFrom i).map (fun p => (p.2.node_name, p.1 + s))) = some k →
    ∃ j, ∃ hj : j < comps.length, (comps.get ⟨j, hj⟩).node_name = name ∧ k = i + j + s := by
  induction comps with
  | nil =>
    intro i name k h
    simp [List.enumFrom, dictLookup] at h
  | cons c rest ih =>
    intro i name k h
    by_cases hc : c.node_name = name
    · simp only [List.enumFrom, List.map_cons, dictLookup, if_pos hc] at h
      cases h
      exact ⟨0, by simp, hc, by omega⟩
    · simp only [List.enumFrom, List.map_cons, dictLookup, if_neg hc] at h
      obtain ⟨j, hj, hn, hk⟩ := ih (i + 1) name k h
      exact ⟨j + 1, by simpa using Nat.succ_lt_succ hj, by simpa using hn, by omega⟩

theorem dictLookup_buildIdxMap_zero (comps : List Comp)
    (hnd : (comps.map Comp.node_name).Nodup) (name : String) (k : Nat)
    (h : dictLookup name (buildIdxMap 0 comps) = some k) :
    ∃ hk : k < comps.length, (comps.get ⟨k, hk⟩).node_name = name := by
  rw [buildIdxMap_eq 0 comps hnd] at h
  obtain ⟨j, hj, hn, hk⟩ := dictLookup_enumMap 0 comps 0 name k h
  have hkj : k = j := by omega
  subst hkj
  exact ⟨hj, hn⟩

theorem placeDiag_low (comps : List Comp) :
    ∀ (i : Nat) (g : Grid) (r c : Nat), r < i ∨ c < i →
    placeDiag 0 0 i comps g r c = g r c := by
  induction comps with
  | nil => intro i g r c _; rfl
  | cons cc rest ih =>
    intro i g r c h
    show placeDiag 0 0 (i + 1) rest (gset g (i + 0) (i + 0) (compNode cc)) r c = g r c
    rw [ih (i + 1) _ r c (by omega)]
    show (if r = i + 0 ∧ c = i + 0 then _ else g r c) = g r c
    rw [if_neg (by omega)]

theorem placeDiag_offdiag (comps : List Comp) :
    ∀ (i : Nat) (g : Grid) (r c : Nat), r ≠ c →
    placeDiag 0 0 i comps g r c = g r c := by
  induction comps with
  | nil => intro i g r c _; rfl
  | cons cc rest ih =>
    intro i g r c h
    show placeDiag 0 0 (i + 1) rest (gset g (i + 0) (i + 0) (compNode cc)) r c = g r c
    rw [ih (i + 1) _ r c h]
    show (if r = i + 0 ∧ c = i + 0 then _ else g r c) = g r c
    rw [if_neg (by omega)]

theorem placeDiag_diag (comps : List Comp) :
    ∀ (i : Nat) (g : Grid) (k : Nat) (hk : k < comps.length),
    placeDiag 0 0 i comps g (i + k) (i + k) = compNode (comps.get ⟨k, hk⟩) := by
  induction comps with
  | nil => intro i g k hk; exact absurd hk (by simp)
  | cons cc rest ih =>
    intro i g k hk
    show placeDiag 0 0 (i + 1) rest (gset g (i + 0) (i + 0) (compNode cc)) (i + k) (i + k) = _
    cases k with
    | zero =>
      rw [placeDiag_low rest (i + 1) _ (i + 0) (i + 0) (by omega)]
      show (if i + 0 = i + 0 ∧ i + 0 = i + 0 then compNode cc else g (i + 0) (i + 0)) = _
      rw [if_pos ⟨rfl, rfl⟩]
      rfl
    | succ k' =>
      have harg : i + (k' + 1) = (i + 1) + k' := by omega
      have hk' : k' < rest.length := by
        have hlen := hk
        simp only [List.length_cons] at hlen
        omega
      rw [harg, ih (i + 1) _ k' hk']
      rfl

theorem placeConns_some (rmap cmap : List (String × Nat)) :
    ∀ (conns : List Conn) (g : Grid),
    (∀ c0 ∈ conns, (connCell rmap cmap c0).isSome) →
    ∃ g', placeConns rmap cmap conns g = some g' := by
  intro conns
  induction conns with
  | nil => intro g _; exact ⟨g, rfl⟩
  | cons c0 rest ih =>
    intro g h
    have hc0 := h c0 (List.mem_cons_self _ _)
    match hcc : connCell rmap cmap c0 with
    | none => rw [hcc] at hc0; simp at hc0
    | some (sr, tc) =>
      simp only [placeConns, hcc]
      exact ih _ (fun q hq => h q (List.mem_cons_of_mem _ hq))

theorem placeConns_miss (rmap cmap : List (String × Nat)) :
    ∀ (conns : List Conn) (g g' : Grid) (r c : Nat),
    placeConns rmap cmap conns g = some g' →
    (∀ c0 ∈ conns, connCell rmap cmap c0 ≠ some (r, c)) →
    g' r c = g r c := by
  intro conns
  induction conns with
  | nil =>
    intro g g' r c h _
    cases h
    rfl
  | cons c0 rest ih =>
    intro g g' r c h hno
    match hcc : connCell rmap cmap c0 with
    | none => rw [placeConns, hcc] at h; cases h
    | some (sr, tc) =>
      simp only [placeConns, hcc] at h
      rw [ih _ g' r c h (fun q hq => hno q (List.mem_cons_of_mem _ hq))]
      have hne : ¬(r = sr ∧ c = tc) := by
        rintro ⟨rfl, rfl⟩
        exact hno c0 (List.mem_cons_self _ _) hcc
      show (if r = sr ∧ c = tc then _ else g r c) = g r c
      rw [if_neg hne]

/-- C1: for a model with N declared components, no input/output markers,
unique component names, and connections between distinct declared
components, `_build_node_grid` lays out an N×N grid with the i-th declared
component's node at cell (i, i) in declaration order, and every other cell
empty except the off-diagonal connection cells. -/
theorem claim_C1 (m : XDSM)
    (hins : m.ins = []) (hleft : m.left_outs = []) (hright : m.right_outs = [])
    (hnodup : (m.comps.map Comp.node_name).Nodup)
    (hconn : ∀ c0 ∈ m.connections, c0.src ≠ c0.target
      ∧ c0.src ∈ m.comps.map Comp.node_name ∧ c0.target ∈ m.comps.map Comp.node_name) :
    gridSize m = m.comps.length
    ∧ ∃ g, buildGrid m = some g
      ∧ (∀ i (hi : i < m.comps.length), g i i = compNode (m.comps.get ⟨i, hi⟩))
      ∧ (∀ r c, r ≠ c →
          (∀ conn ∈ m.connections,
            connCell (buildIdxMap 0 m.comps) (buildIdxMap 0 m.comps) conn ≠ some (r, c)) →
          g r c = "") := by
  have hrs : rowShift m = 0 := by simp [rowShift, hins]
  have hcs : colShift m = 0 := by simp [colShift, hleft]
  have hsize : gridSize m = m.comps.length := by simp [gridSize, hins, hleft, hright]
  have hsomec : ∀ c0 ∈ m.connections,
      (connCell (buildIdxMap 0 m.comps) (buildIdxMap 0 m.comps) c0).isSome := by
    intro c0 hc0
    obtain ⟨-, hsrc, htgt⟩ := hconn c0 hc0
    obtain ⟨vs, hvs⟩ := buildIdxMapGo_mem 0 m.comps 0 [] c0.src hsrc
    obtain ⟨vt, hvt⟩ := buildIdxMapGo_mem 0 m.comps 0 [] c0.target htgt
    simp only [connCell, buildIdxMap, hvs, hvt, Option.isSome_some]
  obtain ⟨g', hg'⟩ := placeConns_some (buildIdxMap 0 m.comps) (buildIdxMap 0 m.comps)
    m.connections (placeDiag 0 0 0 m.comps emptyGrid) hsomec
  have hbg : buildGrid m = some g' := by
    simp only [buildGrid, hrs, hcs, hins, hleft, hright]
    rw [hg']
    rfl
  refine ⟨hsize, g', hbg, ?_, ?_⟩
  · intro i hi
    have hne : ∀ conn ∈ m.connections,
        connCell (buildIdxMap 0 m.comps) (buildIdxMap 0 m.comps) conn ≠ some (i, i) := by
      intro conn hcm heq
      obtain ⟨hne', hsrc, htgt⟩ := hconn conn hcm
      cases hs : dictLookup conn.src (buildIdxMap 0 m.comps) with
      | none =>
        simp only [connCell, hs] at heq
        exact Option.noConfusion heq
      | some sr =>
        cases ht : dictLookup conn.target (buildIdxMap 0 m.comps) with
        | none =>
          simp only [connCell, hs, ht] at heq
          exact Option.noConfusion heq
        | some tc =>
          simp only [connCell, hs, ht, Option.some.injEq, Prod.mk.injEq] at heq
          obtain ⟨rfl, rfl⟩ := heq
          obtain ⟨hks, hns⟩ := dictLookup_buildIdxMap_zero m.comps hnodup conn.src _ hs
          obtain ⟨hkt, hnt⟩ := dictLookup_buildIdxMap_zero m.comps hnodup conn.target _ ht
          exact hne' (hns.symm.trans hnt)
    rw [placeConns_miss (buildIdxMap 0 m.comps) (buildIdxMap 0 m.comps) m.connections _ g'
      i i hg' hne]
    have h2 := placeDiag_diag m.comps 0 emptyGrid i hi
    rw [Nat.zero_add] at h2
    exact h2
  · intro r c hrc hno
    rw [placeConns_miss (buildIdxMap 0 m.comps) (buildIdxMap 0 m.comps) m.connections _ g'
      r c hg' hno]
    exact placeDiag_offdiag m.comps 0 emptyGrid r c hrc

theorem claim_C1_witness :
    gridSize exampleAB = exampleAB.comps.length
    ∧ ∃ g, buildGrid exampleAB = some g
      ∧ (∀ i (hi : i < exampleAB.comps.length), g i i = compNode (exampleAB.comps.get ⟨i, hi⟩))
      ∧ (∀ r c, r ≠ c →
          (∀ conn ∈ exampleAB.connections,
            connCell (buildIdxMap 0 exampleAB.comps) (buildIdxMap 0 exampleAB.comps) conn
              ≠ some (r, c)) →
          g r c = "") :=
  claim_C1 exampleAB rfl rfl rfl (by decide) (by decide)

theorem claim_C2_witness :
    exampleA.ins ≠ []
    ∧ (gridSize exampleA = gridSize { exampleA with ins := [] } + 1
      ∧ rowShift exampleA = 1 ∧ rowShift { exampleA with ins := [] } = 0
      ∧ buildIdxMap (rowShift exampleA) exampleA.comps
          = (buildIdxMap (rowShift { exampleA with ins := [] }) exampleA.comps).map
              (fun p => (p.1, p.2 + 1))) :=
  ⟨by decide, claim_C2 exampleA (by decide)⟩

end PyXDSM
